import Mathlib

/-!
Shallow embedding of the temporal snapshot / incremental-merge core of the
bloodwork_age repository (src/biomarkers.py, src/config.py,
src/generate_batch_urls.py, src/generate_levine_batch_urls.py,
src/levine_biomarkers.py, src/update_incremental.py), together with proofs
of the specification claims about it.

Modelling conventions:
* Python strings are Lean `String`s; character-level work happens on
  `List Char` (`String.data`).  Whitespace and case handling are modelled
  for ASCII text, which is what the data paths of this program carry.
* Python `datetime` values produced by `strptime('%Y-%m-%d')` are modelled
  by their Gregorian day number (a `Nat`), so `datetime` comparison and
  day subtraction become `Nat`/`Int` operations; `daysFromCivil` is the
  standard civil-calendar day count.
* Python floats are modelled as exact rationals (`ℚ`); `round(x, 1)` is
  modelled as round-half-to-even of `10 * x` divided by ten.
* Python dicts are modelled as insertion-ordered association lists with
  in-place update (`dictSet`), matching dict assignment semantics.
-/

namespace Bloodwork

/-- ASCII whitespace recognised by Python `str.strip()` (ASCII model). -/
def isPySpace (c : Char) : Bool :=
  c = ' ' || c = '\t' || c = '\n' || c = '\r' || c = '\x0b' || c = '\x0c'

/-- Drop leading whitespace, as in Python `lstrip()`. -/
def lstripL (l : List Char) : List Char := l.dropWhile isPySpace

/-- Drop trailing whitespace, as in Python `rstrip()`. -/
def rstripL (l : List Char) : List Char := (l.reverse.dropWhile isPySpace).reverse

/-- Python `str.strip()` on character lists. -/
def stripL (l : List Char) : List Char := rstripL (lstripL l)

/-- Python `str.strip()` on strings. -/
def pyStrip (s : String) : String := String.mk (stripL s.data)

/-- The comparison-operator characters removed by `clean_value`. -/
def isOpChar (c : Char) : Bool := c = '<' || c = '>' || c = '='

/-- Core of `clean_value` (src/biomarkers.py): the falsy-input branch, then
removal of every `<`, `>`, `=` character, then `strip()`. -/
def cleanValueCore (l : List Char) : List Char :=
  if l = [] then [] else stripL (l.filter fun c => !(isOpChar c))

/-- Embeds `clean_value` from src/biomarkers.py. -/
def clean_value (val : String) : String := String.mk (cleanValueCore val.data)

/-- Python `str.lower()` (ASCII model). -/
def pyLower (s : String) : String := String.mk (s.data.map Char.toLower)

/-- ASCII decimal digit test. -/
def isAsciiDigit (c : Char) : Bool := '0' ≤ c && c ≤ '9'

/-- Remove the underscores of a candidate numeric string, requiring each
underscore to sit between two digits; otherwise fail.  This is CPython's
underscore rule for `float()` literals. -/
def remUnd : List Char → Option (List Char)
  | [] => some []
  | '_' :: _ => none
  | c :: '_' :: rest =>
    if isAsciiDigit c then
      match rest with
      | [] => none
      | d :: _ => if isAsciiDigit d then (remUnd rest).map (fun l => c :: l) else none
    else none
  | c :: rest => (remUnd rest).map (fun l => c :: l)

/-- Drop one optional leading sign character. -/
def dropSign : List Char → List Char
  | '+' :: rest => rest
  | '-' :: rest => rest
  | l => l

/-- Exponent tail of a float literal: empty, or `e`, an optional sign and a
nonempty digit run ending the string (input already lower-cased). -/
def expOk : List Char → Bool
  | [] => true
  | 'e' :: rest =>
    let rest' := dropSign rest
    let p := rest'.span isAsciiDigit
    !p.1.isEmpty && p.2.isEmpty
  | _ => false

/-- Mantissa with optional fraction and exponent: `digits [. digits] [exp]`
with at least one mantissa digit (input already lower-cased and unsigned). -/
def mantissaExpOk (l : List Char) : Bool :=
  let p := l.span isAsciiDigit
  match p.2 with
  | '.' :: r2 =>
    let q := r2.span isAsciiDigit
    (!p.1.isEmpty || !q.1.isEmpty) && expOk q.2
  | _ => !p.1.isEmpty && expOk p.2

/-- Python `float()` acceptance (ASCII model): optional surrounding
whitespace, underscores between digits, an optional sign, then either a
decimal / scientific-notation number or one of the case-insensitive special
tokens `inf`, `infinity`, `nan`. -/
def pyFloatAccepts (s : String) : Bool :=
  match remUnd (stripL s.data) with
  | none => false
  | some l =>
    let b := dropSign (l.map Char.toLower)
    b == "inf".data || b == "infinity".data || b == "nan".data || mantissaExpOk b

/-- The `DATA_NOT_AVAILABLE` constant of src/biomarkers.py. -/
def DATA_NOT_AVAILABLE : String := "data not available"

/-- The sentinel list checked by `is_valid_numeric` (src/biomarkers.py line 105). -/
def sentinelTokens : List String :=
  [DATA_NOT_AVAILABLE, "n/a", "na", "pending", "none", "null"]

/-- Embeds `is_valid_numeric` from src/biomarkers.py: empty strings and the
lower-cased sentinel tokens are invalid; otherwise valid exactly when
Python `float()` accepts the string. -/
def is_valid_numeric (val : String) : Bool :=
  if val = "" then false
  else if sentinelTokens.contains (pyLower val) then false
  else pyFloatAccepts val

/-- Modelled from the spec: a string that "parses as a finite decimal or
scientific-notation number" — the `float()` grammar with the non-finite
`inf` / `infinity` / `nan` tokens removed.  Used to compare the spec's
wording of `is_numeric` with the code's actual acceptance. -/
def specFiniteNumber (s : String) : Bool :=
  match remUnd (stripL s.data) with
  | none => false
  | some l => mantissaExpOk (dropSign (l.map Char.toLower))

/-- Embeds `normalize_unit` from src/biomarkers.py. -/
def normalize_unit (u : String) : String := if u = "%" then "%25" else u

/-- Characters `urllib.parse.quote` never encodes: `A`-`Z`, `a`-`z`,
`0`-`9`, `_`, `.`, `-`, `~`. -/
def isAlwaysSafe (c : Char) : Bool :=
  ('A' ≤ c && c ≤ 'Z') || ('a' ≤ c && c ≤ 'z') || ('0' ≤ c && c ≤ '9') ||
  c = '_' || c = '.' || c = '-' || c = '~'

/-- Upper-case hexadecimal digit for a value below 16. -/
def hexDigit (n : Nat) : Char :=
  if n < 10 then Char.ofNat ('0'.toNat + n) else Char.ofNat ('A'.toNat + n - 10)

/-- Percent-escape one byte value as `%XX` with upper-case hex. -/
def hexByte (n : Nat) : List Char := ['%', hexDigit (n / 16 % 16), hexDigit (n % 16)]

/-- UTF-8 byte sequence of one character (byte values as `Nat`). -/
def utf8Bytes (c : Char) : List Nat :=
  let n := c.toNat
  if n < 128 then [n]
  else if n < 2048 then [192 + n / 64, 128 + n % 64]
  else if n < 65536 then [224 + n / 4096, 128 + n / 64 % 64, 128 + n % 64]
  else [240 + n / 262144, 128 + n / 4096 % 64, 128 + n / 64 % 64, 128 + n % 64]

/-- Quote one character as `urllib.parse.quote` does. -/
def quoteChar (c : Char) : List Char :=
  if isAlwaysSafe c then [c] else (utf8Bytes c).flatMap hexByte

/-- Embeds `urllib.parse.quote(s, safe='')` as used by get_all_urls
(src/generate_batch_urls.py line 137): percent-encode the UTF-8 bytes of
every character outside the always-safe set, with no extra safe characters. -/
def pquote (s : String) : String := String.mk (s.data.flatMap quoteChar)

/-- Gregorian day number of a civil date (valid for CE dates), the standard
days-from-civil algorithm.  Dates are modelled by this day number. -/
def daysFromCivil (y m d : Nat) : Nat :=
  let y' := if m ≤ 2 then y - 1 else y
  let era := y' / 400
  let yoe := y' % 400
  let mp := if 2 < m then m - 3 else m + 9
  let doy := (153 * mp + 2) / 5 + (d - 1)
  let doe := yoe * 365 + yoe / 4 - yoe / 100 + doy
  era * 146097 + doe

/-- A parsed `%Y-%m-%d` date, modelled by its Gregorian day number. -/
abbrev Date := Nat

/-- Build a `Date` from year, month, day. -/
def mkDate (y m d : Nat) : Date := daysFromCivil y m d

/-- The `BIRTHDATE` constant of src/config.py, `"1958-07-08"`, parsed. -/
def BIRTHDATE : Date := mkDate 1958 7 8

/-- Round-half-to-even on rationals, as Python `round` ties-to-even. -/
def roundHalfEven (q : ℚ) : ℤ :=
  let f := ⌊q⌋
  let r := q - (f : ℚ)
  if r < 1/2 then f
  else if (1 : ℚ)/2 < r then f + 1
  else if f % 2 = 0 then f else f + 1

/-- Embeds `calculate_age` from src/config.py: day difference divided by
365.25, rounded to one decimal place (floats modelled as exact rationals,
`round` modelled as round-half-to-even). -/
def calculate_age (birthdate test_date : Date) : ℚ :=
  let age_days : ℤ := (test_date : ℤ) - (birthdate : ℤ)
  let age_years : ℚ := (age_days : ℚ) / (36525 / 100)
  ((roundHalfEven (age_years * 10) : ℚ)) / 10

/-- The decimal string `str(calculated_age)` stored as the age value, for
the nonnegative one-decimal results this program produces (e.g. `"65.5"`). -/
def ageString (birthdate test_date : Date) : String :=
  let age_days : ℤ := (test_date : ℤ) - (birthdate : ℤ)
  let t : ℤ := roundHalfEven ((age_days : ℚ) / (36525 / 100) * 10)
  toString (t / 10) ++ "." ++ toString (t % 10)

/-- Python string comparison on character lists: code-point lexicographic,
as used by `sorted()` on `str`. -/
def charListLe : List Char → List Char → Bool
  | [], _ => true
  | _ :: _, [] => false
  | a :: as, b :: bs =>
    if a.toNat < b.toNat then true
    else if b.toNat < a.toNat then false
    else charListLe as bs

/-- Python `sorted()` string order. -/
def strLe (a b : String) : Prop := charListLe a.data b.data = true

instance : DecidableRel strLe := fun a b =>
  inferInstanceAs (Decidable (charListLe a.data b.data = true))

/-- One CSV row as seen by the generators: free-text biomarker name, raw
value, unit and measurement date.  `date = none` models a measurement-date
string that `strptime('%Y-%m-%d')` rejects (the row loop skips it). -/
structure Reading where
  biomarker : String
  value : String
  unit : String
  date : Option Date
deriving DecidableEq

/-- One snapshot slot of get_all_urls: `{'value': …, 'unit': …, 'date': …}`. -/
structure Entry where
  value : String
  unit : String
  date : Date
deriving DecidableEq

/-- One snapshot slot of get_all_levine_urls: `{'value': …, 'date': …}`. -/
structure LevineEntry where
  value : String
  date : Date
deriving DecidableEq

/-- Python dict lookup on an insertion-ordered association list. -/
def dictGet? {β : Type} (k : String) : List (String × β) → Option β
  | [] => none
  | (k', v) :: rest => if k' = k then some v else dictGet? k rest

/-- Python dict assignment `d[k] = v`: update in place, else append. -/
def dictSet {β : Type} (k : String) (v : β) : List (String × β) → List (String × β)
  | [] => [(k, v)]
  | (k', v') :: rest => if k' = k then (k, v) :: rest else (k', v') :: dictSet k v rest

/-- The `BASE_URL` constant of src/biomarkers.py. -/
def BASE_URL : String := "https://www.longevity-tools.com/humanitys-bortz-blood-age#?"

/-- The `BIOMARKER_MAP` of src/biomarkers.py, in source order. -/
def BIOMARKER_MAP : List (String × String) :=
  [("Age", "age"),
   ("Albumin", "S-albumin"),
   ("S-albumin", "S-albumin"),
   ("ALP", "S-ALP"),
   ("S-ALP", "S-ALP"),
   ("Urea", "S-urea"),
   ("S-urea", "S-urea"),
   ("BUN", "S-urea"),
   ("Cholesterol", "S-cholesterol"),
   ("Total Cholesterol", "S-cholesterol"),
   ("S-cholesterol", "S-cholesterol"),
   ("Creatinine", "S-creatinine"),
   ("S-creatinine", "S-creatinine"),
   ("Cystatin C", "S-cystatin-C"),
   ("S-cystatin-C", "S-cystatin-C"),
   ("HbA1c", "B-HbA1c"),
   ("B-HbA1c", "B-HbA1c"),
   ("hsCRP", "S-hsCRP"),
   ("hs-CRP", "S-hsCRP"),
   ("S-hsCRP", "S-hsCRP"),
   ("GGT", "S-GGT"),
   ("S-GGT", "S-GGT"),
   ("Red Blood Cell Count", "RBC"),
   ("RBC", "RBC"),
   ("MCV", "MCV"),
   ("RDW", "RDW"),
   ("RDW (RDW-CV)", "RDW"),
   ("RDW-SD", "RDW"),
   ("RDW-CV", "RDW"),
   ("Absolute Monocytes", "MONOabs"),
   ("MONOabs", "MONOabs"),
   ("Monocytes (Absolute)", "MONOabs"),
   ("Absolute Neutrophils", "NEUabs"),
   ("NEUabs", "NEUabs"),
   ("Neutrophils (Absolute)", "NEUabs"),
   ("LYM", "LYM"),
   ("Lymphocytes (%)", "LYM"),
   ("ALT", "S-ALT"),
   ("S-ALT", "S-ALT"),
   ("SHBG", "S-SHBG"),
   ("S-SHBG", "S-SHBG"),
   ("Vitamin D (25-OH)", "S-25-OH-D"),
   ("Vitamin D - 25(OH)D", "S-25-OH-D"),
   ("Vitamin D3 (25-OH D3)", "S-25-OH-D"),
   ("Vitamin D, 25-Hydroxy", "S-25-OH-D"),
   ("S-25-OH-D", "S-25-OH-D"),
   ("Glucose", "S-glucose"),
   ("S-glucose", "S-glucose"),
   ("Glucose (Fasting)", "S-glucose"),
   ("MCH", "MCH"),
   ("ApoA1", "S-ApoA1"),
   ("S-ApoA1", "S-ApoA1"),
   ("Apolipoprotein A1", "S-ApoA1")]

/-- One iteration of the per-row loop of get_all_urls
(src/generate_batch_urls.py lines 80-108), acting on the `data` dict. -/
def bortzStep (cutoff : Date) (data : List (String × Entry)) (row : Reading) :
    List (String × Entry) :=
  let raw_marker := pyStrip row.biomarker
  match dictGet? raw_marker BIOMARKER_MAP with
  | none => data
  | some marker_id =>
    if marker_id = "age" then data
    else
      let value := clean_value (pyStrip row.value)
      if !is_valid_numeric value then data
      else
        let u := pyStrip row.unit
        match row.date with
        | none => data
        | some date_obj =>
          if date_obj ≤ cutoff then
            match dictGet? marker_id data with
            | none => dictSet marker_id ⟨value, u, date_obj⟩ data
            | some e =>
              if e.date < date_obj then dictSet marker_id ⟨value, u, date_obj⟩ data
              else data
          else data

/-- The `data` dict built by get_all_urls for one cutoff date, before the
age entry is injected. -/
def buildBortzData (cutoff : Date) (rows : List Reading) : List (String × Entry) :=
  rows.foldl (bortzStep cutoff) []

/-- Classifies one row of the get_all_urls loop: `some (id, entry)` when the
row reaches the latest-wins update step (name resolved to a non-age id,
value numeric after sanitization, valid date on or before the cutoff). -/
def bortzSurvivor? (cutoff : Date) (row : Reading) : Option (String × Entry) :=
  let raw_marker := pyStrip row.biomarker
  match dictGet? raw_marker BIOMARKER_MAP with
  | none => none
  | some marker_id =>
    if marker_id = "age" then none
    else
      let value := clean_value (pyStrip row.value)
      if !is_valid_numeric value then none
      else
        let u := pyStrip row.unit
        match row.date with
        | none => none
        | some date_obj =>
          if date_obj ≤ cutoff then some (marker_id, ⟨value, u, date_obj⟩)
          else none

/-- The surviving readings of one resolved id, in input order. -/
def bortzSurvivors (cutoff : Date) (rows : List Reading) (id : String) : List Entry :=
  rows.filterMap (fun row =>
    match bortzSurvivor? cutoff row with
    | some (i, e) => if i = id then some e else none
    | none => none)

/-- Latest-wins fold of one candidate into an optional current slot,
mirroring `marker_id not in data or date_obj > data[marker_id]['date']`. -/
def pickOne (o : Option Entry) (e : Entry) : Option Entry :=
  match o with
  | none => some e
  | some old => if old.date < e.date then some e else some old

/-- Latest-wins fold over a survivor list. -/
def pickFold (o : Option Entry) (l : List Entry) : Option Entry := l.foldl pickOne o

/-- Maximum date over a survivor list (0 when empty). -/
def maxSurvivorDate (l : List Entry) : Date :=
  l.foldl (fun a e => max a e.date) 0

/-- The effect of one surviving row on the dict at its id. -/
def condUpdate (id : String) (e : Entry) (data : List (String × Entry)) :
    List (String × Entry) :=
  match dictGet? id data with
  | none => dictSet id e data
  | some old => if old.date < e.date then dictSet id e data else data

/-- The snapshot of get_all_urls for one cutoff: the folded dict with the
synthesized age entry injected under the reserved id `age`
(src/generate_batch_urls.py lines 114-124). -/
def bortzSnapshot (rows : List Reading) (cutoff : Date) : List (String × Entry) :=
  dictSet "age" ⟨ageString BIRTHDATE cutoff, "years", cutoff⟩ (buildBortzData cutoff rows)

/-- The keys of a snapshot dict in Python `sorted()` order. -/
def sortKeys {β : Type} (data : List (String × β)) : List String :=
  List.insertionSort strLe (data.map Prod.fst)

/-- The URL parameter list of get_all_urls (lines 131-137): for each key of
`sorted(data.keys())`, `f"{marker_id}={quote(value + '_' + unit, safe='')}"`
with the unit first passed through `normalize_unit`.  The `none` branch is
unreachable: the iterated keys are keys of the dict. -/
def bortzParams (data : List (String × Entry)) : List String :=
  (sortKeys data).map (fun marker_id =>
    match dictGet? marker_id data with
    | some info => marker_id ++ "=" ++ pquote (info.value ++ "_" ++ normalize_unit info.unit)
    | none => "")

/-- The full Variant A encoded string of a snapshot. -/
def encodeBortz (data : List (String × Entry)) : String :=
  BASE_URL ++ String.intercalate "&" (bortzParams data)

/-- Modelled from the spec (Variant A wording): for each present id sorted
lexicographically, emit `id=percent_encoded(value_underscore_unit)` joined
by `&` after the fixed base, the unit being pre-normalised. -/
def specVariantA (data : List (String × Entry)) : String :=
  BASE_URL ++ String.intercalate "&"
    ((List.insertionSort (fun a b : String × Entry => strLe a.1 b.1) data).map
      (fun kv => kv.1 ++ "=" ++ pquote (kv.2.value ++ "_" ++ normalize_unit kv.2.unit)))

/-- The `LEVINE_BASE_URL` constant of src/levine_biomarkers.py. -/
def LEVINE_BASE_URL : String := "https://www.longevity-tools.com/levine-pheno-age#"

/-- The `LEVINE_BIOMARKER_MAP` of src/levine_biomarkers.py, in source order. -/
def LEVINE_BIOMARKER_MAP : List (String × String) :=
  [("Age", "age"),
   ("Albumin", "S-albumin"),
   ("S-albumin", "S-albumin"),
   ("Creatinine", "S-creatinine"),
   ("S-creatinine", "S-creatinine"),
   ("Glucose", "S-glucose"),
   ("S-glucose", "S-glucose"),
   ("Glucose (Fasting)", "S-glucose"),
   ("hsCRP", "S-hsCRP"),
   ("hs-CRP", "S-hsCRP"),
   ("S-hsCRP", "S-hsCRP"),
   ("CRP", "S-hsCRP"),
   ("LYM", "LYM"),
   ("Lymphocytes (%)", "LYM"),
   ("Lymphocytes", "LYM"),
   ("MCV", "MCV"),
   ("RDW", "RDW"),
   ("RDW (RDW-CV)", "RDW"),
   ("RDW-SD", "RDW"),
   ("RDW-CV", "RDW"),
   ("ALP", "S-ALP"),
   ("S-ALP", "S-ALP"),
   ("Alkaline Phosphatase", "S-ALP"),
   ("WBC", "WBC"),
   ("White Blood Cell Count", "WBC"),
   ("White Blood Cells", "WBC"),
   ("Leukocytes", "WBC")]

/-- The `LEVINE_REQUIRED_BIOMARKERS` set of src/levine_biomarkers.py
(a Python set; modelled as its element list). -/
def LEVINE_REQUIRED_BIOMARKERS : List String :=
  ["S-albumin", "S-creatinine", "S-glucose", "S-hsCRP", "LYM",
   "MCV", "RDW", "S-ALP", "WBC", "age"]

/-- Embeds `validate_levine_data` from src/levine_biomarkers.py: `missing`
is the required-minus-present set difference, the first component is
`len(missing) == 0`, the second is `sorted(missing)`. -/
def validate_levine_data {β : Type} (data : List (String × β)) : Bool × List String :=
  let present := data.map Prod.fst
  let missing := LEVINE_REQUIRED_BIOMARKERS.filter (fun id => !present.contains id)
  (missing.length = 0, List.insertionSort strLe missing)

/-- One iteration of the per-row loop of get_all_levine_urls
(src/generate_levine_batch_urls.py lines 80-107). -/
def levineStep (cutoff : Date) (data : List (String × LevineEntry)) (row : Reading) :
    List (String × LevineEntry) :=
  let raw_marker := pyStrip row.biomarker
  match dictGet? raw_marker LEVINE_BIOMARKER_MAP with
  | none => data
  | some marker_id =>
    if marker_id = "age" then data
    else
      let value := clean_value (pyStrip row.value)
      if !is_valid_numeric value then data
      else
        match row.date with
        | none => data
        | some date_obj =>
          if date_obj ≤ cutoff then
            match dictGet? marker_id data with
            | none => dictSet marker_id ⟨value, date_obj⟩ data
            | some e =>
              if e.date < date_obj then dictSet marker_id ⟨value, date_obj⟩ data
              else data
          else data

/-- The `data` dict built by get_all_levine_urls for one cutoff date,
before the age entry is injected. -/
def buildLevineData (cutoff : Date) (rows : List Reading) : List (String × LevineEntry) :=
  rows.foldl (levineStep cutoff) []

/-- The Levine snapshot for one cutoff date, with the age entry injected. -/
def levineSnapshot (rows : List Reading) (cutoff : Date) : List (String × LevineEntry) :=
  dictSet "age" ⟨ageString BIRTHDATE cutoff, cutoff⟩ (buildLevineData cutoff rows)

/-- The URL parameter list of get_all_levine_urls (lines 136-140):
`f"{marker_id}={info['value']}"` over `sorted(data.keys())`. -/
def levineParams (data : List (String × LevineEntry)) : List String :=
  (sortKeys data).map (fun marker_id =>
    match dictGet? marker_id data with
    | some info => marker_id ++ "=" ++ info.value
    | none => "")

/-- The per-cutoff body of get_all_levine_urls (lines 69-145): `none` when
the folded dict is empty (`if not data: continue`) or when validation fails
(`if not is_valid: continue`); otherwise the `{date, url}` result record. -/
def levineRecordForCutoff (rows : List Reading) (cutoff : Date) :
    Option (Date × String) :=
  let data := buildLevineData cutoff rows
  if data = [] then none
  else
    let data := dictSet "age" ⟨ageString BIRTHDATE cutoff, cutoff⟩ data
    let v := validate_levine_data data
    if v.1 = false then none
    else some (cutoff, LEVINE_BASE_URL ++ String.intercalate "&" (levineParams data))

/-- One `{date, url}` record of a persisted batch-URL JSON file, the date
already parsed (the merge sorts by `strptime` of the stored string). -/
structure ResultRecord where
  date : Date
  url : String
deriving DecidableEq

/-- Sort relation of `existing_data.sort(key=…strptime(x['date'])…)`. -/
def byDate (a b : ResultRecord) : Prop := a.date ≤ b.date

instance : DecidableRel byDate := fun a b => inferInstanceAs (Decidable (a.date ≤ b.date))

instance : IsTotal ResultRecord byDate := ⟨fun a b => Nat.le_total a.date b.date⟩

instance : IsTrans ResultRecord byDate := ⟨fun _ _ _ h₁ h₂ => Nat.le_trans h₁ h₂⟩

/-- Embeds `filter_new_dates_from_urls` from src/update_incremental.py
(lines 115-128): keep the entries whose date is not already present. -/
def filter_new_dates_from_urls (all_urls : List ResultRecord)
    (existing_dates : List Date) : List ResultRecord :=
  all_urls.filter (fun entry => !(existing_dates.contains entry.date))

/-- Embeds `append_to_batch_urls` from src/update_incremental.py (lines
98-102): extend the persisted list with the new entries and stable-sort by
date (Python `list.sort` is stable; modelled by insertion sort, which is
stable for the same relation). -/
def append_to_batch_urls (existing_data new_entries : List ResultRecord) :
    List ResultRecord :=
  List.insertionSort byDate (existing_data ++ new_entries)

/-- The composed incremental merge performed by main() in
src/update_incremental.py: filter the fresh batch against the persisted
dates, then append and sort. -/
def mergeResults (persisted fresh : List ResultRecord) : List ResultRecord :=
  append_to_batch_urls persisted
    (filter_new_dates_from_urls fresh (persisted.map ResultRecord.date))

/-- The ten required Levine ids in Python `sorted()` order. -/
def levineSortedRequired : List String :=
  ["LYM", "MCV", "RDW", "S-ALP", "S-albumin", "S-creatinine", "S-glucose",
   "S-hsCRP", "WBC", "age"]

/-- Sample cutoff date 2024-01-10 used for witnesses. -/
def sampleCutoff : Date := mkDate 2024 1 10

/-- Two glucose readings on the same date: a tie for the maximum date. -/
def tieRows : List Reading :=
  [⟨"Glucose", "95", "mg/dL", some sampleCutoff⟩,
   ⟨"Glucose", "110", "mg/dL", some sampleCutoff⟩]

/-- A full Levine panel on one date, used for witnesses. -/
def sampleLevineRows : List Reading :=
  [⟨"Albumin", "4.2", "g/dL", some sampleCutoff⟩,
   ⟨"Creatinine", "1.0", "mg/dL", some sampleCutoff⟩,
   ⟨"Glucose", "95", "mg/dL", some sampleCutoff⟩,
   ⟨"hsCRP", "1.0", "mg/L", some sampleCutoff⟩,
   ⟨"LYM", "30", "%", some sampleCutoff⟩,
   ⟨"MCV", "90", "fL", some sampleCutoff⟩,
   ⟨"RDW", "13", "%", some sampleCutoff⟩,
   ⟨"ALP", "70", "U/L", some sampleCutoff⟩,
   ⟨"WBC", "5", "10E3/uL", some sampleCutoff⟩]

/-- Sample persisted result set for merge witnesses. -/
def samplePersisted : List ResultRecord := [⟨2, "u2"⟩]

/-- Sample fresh batch for merge witnesses: one new date and one colliding
date carrying a different record. -/
def sampleFresh : List ResultRecord := [⟨1, "u1"⟩, ⟨2, "x"⟩]

/-- Sample snapshot dict for encoding witnesses. -/
def sampleDict : List (String × Entry) :=
  [("S-glucose", ⟨"95", "mg/dL", 0⟩), ("LYM", ⟨"30", "%", 0⟩)]

/-- The same snapshot dict with its entries permuted. -/
def sampleDictPerm : List (String × Entry) :=
  [("LYM", ⟨"30", "%", 0⟩), ("S-glucose", ⟨"95", "mg/dL", 0⟩)]

instance : IsTotal String strLe := by
  constructor
  intro a b
  show charListLe a.data b.data = true ∨ charListLe b.data a.data = true
  generalize a.data = x
  generalize b.data = y
  induction x generalizing y with
  | nil => exact Or.inl rfl
  | cons c cs ih =>
    cases y with
    | nil => exact Or.inr rfl
    | cons d ds =>
      by_cases h1 : c.toNat < d.toNat
      · exact Or.inl (by simp [charListLe, h1])
      · by_cases h2 : d.toNat < c.toNat
        · exact Or.inr (by simp [charListLe, h2])
        · rcases ih ds with h | h
          · exact Or.inl (by simp [charListLe, h1, h2, h])
          · exact Or.inr (by simp [charListLe, h1, h2, h])

instance : IsTrans String strLe := by
  constructor
  intro a b c hab hbc
  show charListLe a.data c.data = true
  rw [strLe] at hab hbc
  revert hab hbc
  generalize a.data = x
  generalize b.data = y
  generalize c.data = z
  induction x generalizing y z with
  | nil => intro _ _; rfl
  | cons p ps ih =>
    intro hab hbc
    cases y with
    | nil => simp [charListLe] at hab
    | cons q qs =>
      cases z with
      | nil => simp [charListLe] at hbc
      | cons r rs =>
        simp only [charListLe] at hab hbc ⊢
        split_ifs at hab hbc ⊢ with h1 h2 h3 h4 h5 h6 <;>
          first
            | rfl
            | omega
            | (exact ih qs rs hab hbc)

instance : IsAntisymm String strLe := by
  constructor
  intro a b hab hba
  rw [strLe] at hab hba
  apply String.ext
  revert hab hba
  generalize a.data = x
  generalize b.data = y
  induction x generalizing y with
  | nil =>
    intro _ hba
    cases y with
    | nil => rfl
    | cons d ds => simp [charListLe] at hba
  | cons c cs ih =>
    intro hab hba
    cases y with
    | nil => simp [charListLe] at hab
    | cons d ds =>
      simp only [charListLe] at hab hba
      split_ifs at hab hba with h1 h2 h3 <;> try omega
      have hnat : c.toNat = d.toNat := by omega
      have hcd : c = d := Char.ext (UInt32.ext hnat)
      rw [hcd, ih ds hab hba]

theorem dictGet?_dictSet {β : Type} (k i : String) (v : β) (d : List (String × β)) :
    dictGet? k (dictSet i v d) = if i = k then some v else dictGet? k d := by
  induction d with
  | nil => simp [dictGet?, dictSet]
  | cons hd tl ih =>
    obtain ⟨k', v'⟩ := hd
    by_cases h : k' = i
    · subst h
      by_cases hk : k' = k <;> simp [dictGet?, dictSet, hk]
    · by_cases hk : k' = k
      · subst hk
        have : ¬ i = k' := fun he => h he.symm
        simp [dictGet?, dictSet, h, this]
      · simp [dictGet?, dictSet, h, hk, ih]

theorem dictGet?_eq_none_iff {β : Type} (k : String) (d : List (String × β)) :
    dictGet? k d = none ↔ k ∉ d.map Prod.fst := by
  induction d with
  | nil => simp [dictGet?]
  | cons hd tl ih =>
    obtain ⟨k', v'⟩ := hd
    by_cases h : k' = k
    · subst h
      simp [dictGet?]
    · have h' : ¬ k = k' := fun he => h he.symm
      simp only [dictGet?, if_neg h, List.map_cons, List.mem_cons]
      rw [ih]
      constructor
      · intro hm hc
        exact hc.elim h' hm
      · intro hr hm
        exact hr (Or.inr hm)

theorem mem_of_dictGet?_eq_some {β : Type} {k : String} {v : β} {d : List (String × β)}
    (h : dictGet? k d = some v) : (k, v) ∈ d := by
  induction d with
  | nil => simp [dictGet?] at h
  | cons hd tl ih =>
    obtain ⟨k', v'⟩ := hd
    simp only [dictGet?] at h
    by_cases hk : k' = k
    · rw [if_pos hk] at h
      injection h with hv
      subst hk
      subst hv
      exact List.mem_cons_self _ _
    · rw [if_neg hk] at h
      exact List.mem_cons_of_mem _ (ih h)

theorem dictGet?_of_mem_nodup {β : Type} {d : List (String × β)}
    (hn : (d.map Prod.fst).Nodup) {k : String} {v : β} (hm : (k, v) ∈ d) :
    dictGet? k d = some v := by
  induction d with
  | nil => cases hm
  | cons hd tl ih =>
    obtain ⟨k', v'⟩ := hd
    rw [List.map_cons, List.nodup_cons] at hn
    rcases List.mem_cons.1 hm with h | h
    · obtain ⟨h1, h2⟩ := Prod.ext_iff.mp h
      subst h1
      subst h2
      simp [dictGet?]
    · have hkk : ¬ k' = k := by
        intro he
        subst he
        exact hn.1 (List.mem_map.2 ⟨(k', v), h, rfl⟩)
      simp only [dictGet?, if_neg hkk]
      exact ih hn.2 h

theorem mem_keys_dictSet {β : Type} (k i : String) (v : β) (d : List (String × β)) :
    k ∈ (dictSet i v d).map Prod.fst ↔ k = i ∨ k ∈ d.map Prod.fst := by
  induction d with
  | nil => simp [dictSet, eq_comm]
  | cons hd tl ih =>
    obtain ⟨k', v'⟩ := hd
    by_cases h : k' = i
    · subst h
      simp [dictSet]
    · simp [dictSet, h, ih]
      tauto

theorem keys_nodup_dictSet {β : Type} (i : String) (v : β) {d : List (String × β)}
    (hn : (d.map Prod.fst).Nodup) : ((dictSet i v d).map Prod.fst).Nodup := by
  induction d with
  | nil => simp [dictSet]
  | cons hd tl ih =>
    obtain ⟨k', v'⟩ := hd
    simp only [List.map_cons, List.nodup_cons] at hn
    by_cases h : k' = i
    · subst h
      have hset : dictSet k' v ((k', v') :: tl) = (k', v) :: tl := by
        simp [dictSet]
      rw [hset, List.map_cons, List.nodup_cons]
      exact hn
    · simp only [dictSet, if_neg h, List.map_cons, List.nodup_cons]
      refine ⟨fun hc => ?_, ih hn.2⟩
      rcases (mem_keys_dictSet k' i v tl).1 hc with he | he
      · exact h he
      · exact hn.1 he

theorem dictGet?_congr_perm {β : Type} {d₁ d₂ : List (String × β)}
    (hn : (d₁.map Prod.fst).Nodup) (hp : d₁.Perm d₂) (k : String) :
    dictGet? k d₁ = dictGet? k d₂ := by
  have hn₂ : (d₂.map Prod.fst).Nodup := ((hp.map Prod.fst).nodup_iff).1 hn
  cases h : dictGet? k d₁ with
  | none =>
    have hk : k ∉ d₁.map Prod.fst := (dictGet?_eq_none_iff k d₁).1 h
    have hk₂ : k ∉ d₂.map Prod.fst := fun hc =>
      hk (((hp.map Prod.fst).mem_iff).2 hc)
    exact ((dictGet?_eq_none_iff k d₂).2 hk₂).symm
  | some v =>
    have hm : (k, v) ∈ d₂ := hp.mem_iff.1 (mem_of_dictGet?_eq_some h)
    exact (dictGet?_of_mem_nodup hn₂ hm).symm

theorem rstripL_idem (l : List Char) : rstripL (rstripL l) = rstripL l := by
  unfold rstripL
  rw [List.reverse_reverse, List.dropWhile_idempotent]

theorem dropWhile_rstripL {l : List Char} (h : List.dropWhile isPySpace l = l) :
    List.dropWhile isPySpace (rstripL l) = rstripL l := by
  cases l with
  | nil => rfl
  | cons a t =>
    have ha : isPySpace a = false := by
      cases hx : isPySpace a
      · rfl
      · exfalso
        have h' : List.dropWhile isPySpace t = a :: t := by
          simpa [List.dropWhile_cons, hx] using h
        have hlen : (List.dropWhile isPySpace t).length ≤ t.length :=
          (List.dropWhile_sublist _).length_le
        rw [h'] at hlen
        simp at hlen
    unfold rstripL
    rw [List.reverse_cons, List.dropWhile_append]
    by_cases he : (List.dropWhile isPySpace t.reverse).isEmpty = true
    · simp only [he, if_pos]
      simp [List.dropWhile_cons, ha]
    · simp only [he, if_neg, Bool.false_eq_true, not_false_iff]
      rw [List.reverse_append]
      simp [List.dropWhile_cons, ha]

theorem stripL_idem (l : List Char) : stripL (stripL l) = stripL l := by
  unfold stripL lstripL
  have hm : List.dropWhile isPySpace (List.dropWhile isPySpace l) =
      List.dropWhile isPySpace l := List.dropWhile_idempotent ..
  rw [dropWhile_rstripL hm, rstripL_idem]

theorem stripL_sublist (l : List Char) : (stripL l).Sublist l := by
  unfold stripL rstripL lstripL
  have h1 : (List.dropWhile isPySpace (List.dropWhile isPySpace l).reverse).Sublist
      (List.dropWhile isPySpace l).reverse := List.dropWhile_sublist _
  have h2 := h1.reverse
  rw [List.reverse_reverse] at h2
  exact h2.trans (List.dropWhile_sublist _)

theorem cleanValueCore_idem (l : List Char) :
    cleanValueCore (cleanValueCore l) = cleanValueCore l := by
  have hdef : ∀ m : List Char, cleanValueCore m =
      if m = [] then [] else stripL (m.filter fun c => !(isOpChar c)) := fun _ => rfl
  by_cases h : l = []
  · subst h
    rfl
  · rw [hdef l, if_neg h]
    by_cases h2 : stripL (l.filter fun c => !(isOpChar c)) = []
    · rw [hdef, if_pos h2, h2]
    · rw [hdef, if_neg h2]
      have hfil : (stripL (l.filter fun c => !(isOpChar c))).filter
          (fun c => !(isOpChar c)) = stripL (l.filter fun c => !(isOpChar c)) :=
        List.filter_eq_self.2 fun a ha =>
          (List.mem_filter.1 ((stripL_sublist _).subset ha)).2
      rw [hfil, stripL_idem]

/-- C9: sanitization is idempotent — `clean_value (clean_value x) = clean_value x`
for every string `x` (src/biomarkers.py `clean_value`). -/
theorem clean_value_idempotent (s : String) :
    clean_value (clean_value s) = clean_value s := by
  have h1 : clean_value s = String.mk (cleanValueCore s.data) := rfl
  rw [h1]
  show String.mk (cleanValueCore (cleanValueCore s.data)) = String.mk (cleanValueCore s.data)
  rw [cleanValueCore_idem]

/-- C5 (amended): `is_valid_numeric` rejects the empty string and the six
case-insensitive sentinel tokens, and otherwise accepts exactly the strings
Python `float()` accepts — the finite decimal / scientific-notation grammar
PLUS the non-finite tokens `inf`, `infinity`, `nan`; a value of only
comparison operators such as `"<"` sanitizes to the empty string and is
rejected. -/
theorem is_valid_numeric_characterisation :
    (∀ val : String, is_valid_numeric val = true ↔
      (val ≠ "" ∧ sentinelTokens.contains (pyLower val) = false ∧
        pyFloatAccepts val = true)) ∧
    clean_value "<" = "" ∧ is_valid_numeric (clean_value "<") = false := by
  refine ⟨fun val => ?_, by decide, by decide⟩
  by_cases h1 : val = ""
  · simp [is_valid_numeric, h1]
  · by_cases h2 : sentinelTokens.contains (pyLower val) = true
    · simp [is_valid_numeric, h1, h2]
    · have h2' : sentinelTokens.contains (pyLower val) = false := by
        cases hx : sentinelTokens.contains (pyLower val)
        · rfl
        · exact absurd hx h2
      simp [is_valid_numeric, h1, h2']

/-- C5 witness: the characterisation applied at the concrete input "3.14". -/
theorem is_valid_numeric_characterisation_witness :
    is_valid_numeric "3.14" = true :=
  (is_valid_numeric_characterisation.1 "3.14").mpr ⟨by decide, by decide, by decide⟩

/-- C5 counterexample: the code accepts "inf", which is not a finite decimal
or scientific-notation number (the spec-worded grammar rejects it), so
"returns true only when the remaining string parses as a finite decimal or
scientific-notation number" is false as stated. -/
theorem is_valid_numeric_accepts_inf :
    is_valid_numeric "inf" = true ∧ specFiniteNumber "inf" = false := by
  exact ⟨by decide, by decide⟩

theorem mergeResults_def (P F : List ResultRecord) :
    mergeResults P F = List.insertionSort byDate
      (P ++ filter_new_dates_from_urls F (P.map ResultRecord.date)) := rfl

/-- C3: the incremental merge is idempotent —
`merge (merge P F) F = merge P F` for every persisted result set `P` and
fresh batch `F` (src/update_incremental.py, filter_new_dates_from_urls
composed with append_to_batch_urls as in main()). -/
theorem mergeResults_idempotent (P F : List ResultRecord) :
    mergeResults (mergeResults P F) F = mergeResults P F := by
  have hQperm : (mergeResults P F).Perm
      (P ++ filter_new_dates_from_urls F (P.map ResultRecord.date)) := by
    rw [mergeResults_def]
    exact List.perm_insertionSort _ _
  have hmem : ∀ e : ResultRecord, e ∈ F →
      e.date ∈ (mergeResults P F).map ResultRecord.date := by
    intro e he
    have hperm := hQperm.map ResultRecord.date
    by_cases hd : e.date ∈ P.map ResultRecord.date
    · refine hperm.mem_iff.2 ?_
      rw [List.map_append, List.mem_append]
      exact Or.inl hd
    · have heN : e ∈ filter_new_dates_from_urls F (P.map ResultRecord.date) := by
        unfold filter_new_dates_from_urls
        refine List.mem_filter.2 ⟨he, ?_⟩
        simpa using hd
      refine hperm.mem_iff.2 ?_
      rw [List.map_append, List.mem_append]
      exact Or.inr (List.mem_map.2 ⟨e, heN, rfl⟩)
  have hfilter : filter_new_dates_from_urls F ((mergeResults P F).map ResultRecord.date)
      = [] := by
    unfold filter_new_dates_from_urls
    rw [List.filter_eq_nil_iff]
    intro e he
    simpa using hmem e he
  show List.insertionSort byDate (mergeResults P F ++
      filter_new_dates_from_urls F ((mergeResults P F).map ResultRecord.date))
    = mergeResults P F
  rw [hfilter, List.append_nil]
  refine List.Sorted.insertionSort_eq ?_
  rw [mergeResults_def]
  exact List.sorted_insertionSort byDate _

theorem find?_date_of_nodup {l : List ResultRecord}
    (hn : (l.map ResultRecord.date).Nodup) {r : ResultRecord} (hr : r ∈ l) :
    l.find? (fun x => x.date == r.date) = some r := by
  induction l with
  | nil => cases hr
  | cons a t ih =>
    rw [List.map_cons, List.nodup_cons] at hn
    by_cases ha : a.date = r.date
    · have hra : r = a := by
        rcases List.mem_cons.1 hr with h | h
        · exact h
        · exfalso
          exact hn.1 (ha ▸ List.mem_map.2 ⟨r, h, rfl⟩)
      subst hra
      rw [List.find?_cons]
      simp
    · have hrt : r ∈ t := by
        rcases List.mem_cons.1 hr with h | h
        · exact absurd (congrArg ResultRecord.date h.symm) ha
        · exact h
      rw [List.find?_cons]
      have hb : (a.date == r.date) = false := by
        simpa using ha
      rw [hb]
      exact ih hn.2 hrt

/-- C4: the incremental merge is append-only — with duplicate-free date sets
on both sides (which the pipeline guarantees by construction), every date
already present in `P` keeps its associated record unchanged by the merge,
and the merged output is sorted ascending by date and holds each date at
most once. -/
theorem mergeResults_append_only (P F : List ResultRecord)
    (hP : (P.map ResultRecord.date).Nodup) (hF : (F.map ResultRecord.date).Nodup) :
    (∀ d, d ∈ P.map ResultRecord.date →
       (mergeResults P F).find? (fun r => r.date == d) = P.find? (fun r => r.date == d))
    ∧ List.Sorted byDate (mergeResults P F)
    ∧ ((mergeResults P F).map ResultRecord.date).Nodup := by
  have hQperm : (mergeResults P F).Perm
      (P ++ filter_new_dates_from_urls F (P.map ResultRecord.date)) := by
    rw [mergeResults_def]
    exact List.perm_insertionSort _ _
  have hNsub : (filter_new_dates_from_urls F (P.map ResultRecord.date)).Sublist F :=
    List.filter_sublist F
  have hNnodup : ((filter_new_dates_from_urls F (P.map ResultRecord.date)).map
      ResultRecord.date).Nodup := (hNsub.map ResultRecord.date).nodup hF
  have hNdisj : ∀ d, d ∈ (filter_new_dates_from_urls F (P.map ResultRecord.date)).map
      ResultRecord.date → d ∉ P.map ResultRecord.date := by
    intro d hd
    rcases List.mem_map.1 hd with ⟨e, he, rfl⟩
    have := (List.mem_filter.1 he).2
    simpa using this
  have hQnodup : ((mergeResults P F).map ResultRecord.date).Nodup := by
    refine ((hQperm.map ResultRecord.date).nodup_iff).2 ?_
    rw [List.map_append, List.nodup_append]
    exact ⟨hP, hNnodup, fun a ha hb => hNdisj a hb ha⟩
  refine ⟨?_, ?_, hQnodup⟩
  · intro d hd
    rcases List.mem_map.1 hd with ⟨r, hrP, rfl⟩
    have h1 : P.find? (fun x => x.date == r.date) = some r := find?_date_of_nodup hP hrP
    have hrQ : r ∈ mergeResults P F := by
      refine hQperm.mem_iff.2 ?_
      exact List.mem_append.2 (Or.inl hrP)
    have h2 : (mergeResults P F).find? (fun x => x.date == r.date) = some r :=
      find?_date_of_nodup hQnodup hrQ
    rw [h1, h2]
  · rw [mergeResults_def]
    exact List.sorted_insertionSort byDate _

/-- C4 witness: the append-only theorem applied to a concrete persisted set
and a fresh batch that collides on date 2 with a different record. -/
theorem mergeResults_append_only_witness :
    (∀ d, d ∈ samplePersisted.map ResultRecord.date →
       (mergeResults samplePersisted sampleFresh).find? (fun r => r.date == d)
         = samplePersisted.find? (fun r => r.date == d))
    ∧ List.Sorted byDate (mergeResults samplePersisted sampleFresh)
    ∧ ((mergeResults samplePersisted sampleFresh).map ResultRecord.date).Nodup :=
  mergeResults_append_only samplePersisted sampleFresh (by decide) (by decide)

theorem bortzStep_eq_none (cutoff : Date) (data : List (String × Entry))
    (row : Reading) (h : bortzSurvivor? cutoff row = none) :
    bortzStep cutoff data row = data := by
  unfold bortzStep
  unfold bortzSurvivor? at h
  dsimp only at h ⊢
  cases hm : dictGet? (pyStrip row.biomarker) BIOMARKER_MAP with
  | none => simp only [hm]
  | some marker_id =>
    simp only [hm] at h ⊢
    by_cases hage : marker_id = "age"
    · simp only [if_pos hage]
    · simp only [if_neg hage] at h ⊢
      by_cases hnum : (!is_valid_numeric (clean_value (pyStrip row.value))) = true
      · simp only [if_pos hnum]
      · simp only [if_neg hnum] at h ⊢
        cases hd : row.date with
        | none => simp only [hd]
        | some date_obj =>
          simp only [hd] at h ⊢
          by_cases hle : date_obj ≤ cutoff
          · simp only [if_pos hle] at h
            cases h
          · simp only [if_neg hle]

theorem bortzStep_eq_some (cutoff : Date) (data : List (String × Entry))
    (row : Reading) {i : String} {e : Entry}
    (h : bortzSurvivor? cutoff row = some (i, e)) :
    bortzStep cutoff data row = condUpdate i e data := by
  unfold bortzStep
  unfold bortzSurvivor? at h
  dsimp only at h ⊢
  cases hm : dictGet? (pyStrip row.biomarker) BIOMARKER_MAP with
  | none => simp only [hm] at h; cases h
  | some marker_id =>
    simp only [hm] at h ⊢
    by_cases hage : marker_id = "age"
    · simp only [if_pos hage] at h; cases h
    · simp only [if_neg hage] at h ⊢
      by_cases hnum : (!is_valid_numeric (clean_value (pyStrip row.value))) = true
      · simp only [if_pos hnum] at h; cases h
      · simp only [if_neg hnum] at h ⊢
        cases hd : row.date with
        | none => simp only [hd] at h; cases h
        | some date_obj =>
          simp only [hd] at h ⊢
          by_cases hle : date_obj ≤ cutoff
          · simp only [if_pos hle] at h ⊢
            injection h with h'
            obtain ⟨h1, h2⟩ := Prod.ext_iff.mp h'
            subst h1
            subst h2
            rfl
          · simp only [if_neg hle] at h
            cases h

theorem dictGet?_condUpdate (id i : String) (e : Entry) (data : List (String × Entry)) :
    dictGet? id (condUpdate i e data) =
      if i = id then pickOne (dictGet? id data) e else dictGet? id data := by
  unfold condUpdate
  cases h : dictGet? i data with
  | none =>
    simp only [h]
    rw [dictGet?_dictSet]
    by_cases hi : i = id
    · subst hi
      rw [if_pos rfl, if_pos rfl, h]
      rfl
    · rw [if_neg hi, if_neg hi]
  | some old =>
    simp only [h]
    by_cases hlt : old.date < e.date
    · rw [if_pos hlt, dictGet?_dictSet]
      by_cases hi : i = id
      · subst hi
        rw [if_pos rfl, if_pos rfl, h]
        simp [pickOne, hlt]
      · rw [if_neg hi, if_neg hi]
    · rw [if_neg hlt]
      by_cases hi : i = id
      · subst hi
        rw [if_pos rfl, h]
        simp [pickOne, hlt]
      · rw [if_neg hi]

theorem bortz_foldl_proj (cutoff : Date) (id : String) :
    ∀ (rows : List Reading) (data : List (String × Entry)),
      dictGet? id (rows.foldl (bortzStep cutoff) data) =
        pickFold (dictGet? id data) (bortzSurvivors cutoff rows id) := by
  intro rows
  induction rows with
  | nil => intro data; rfl
  | cons row rows ih =>
    intro data
    rw [List.foldl_cons, ih]
    unfold bortzSurvivors
    rw [List.filterMap_cons]
    cases hs : bortzSurvivor? cutoff row with
    | none =>
      rw [bortzStep_eq_none cutoff data row hs]
    | some p =>
      obtain ⟨i, e⟩ := p
      rw [bortzStep_eq_some cutoff data row hs, dictGet?_condUpdate]
      by_cases hi : i = id
      · subst hi
        simp only [hs, if_pos]
        rfl
      · simp only [hs, if_neg hi]

theorem pickOne_isSome (o : Option Entry) (e : Entry) : (pickOne o e).isSome = true := by
  cases o with
  | none => rfl
  | some old =>
    dsimp only [pickOne]
    by_cases hlt : old.date < e.date
    · rw [if_pos hlt]
      rfl
    · rw [if_neg hlt]
      rfl

theorem pickFold_isSome : ∀ (l : List Entry) (o : Option Entry),
    o.isSome = true → (pickFold o l).isSome = true := by
  intro l
  induction l with
  | nil => intro o h; exact h
  | cons e t ih =>
    intro o _
    exact ih (pickOne o e) (pickOne_isSome o e)

theorem le_foldl_max : ∀ (l : List Entry) (a : Date),
    a ≤ l.foldl (fun a e => max a e.date) a := by
  intro l
  induction l with
  | nil => intro a; exact le_refl a
  | cons e t ih =>
    intro a
    exact le_trans (le_max_left a e.date) (ih (max a e.date))

theorem date_le_foldl_max : ∀ (l : List Entry) (a : Date) (x : Entry), x ∈ l →
    x.date ≤ l.foldl (fun a e => max a e.date) a := by
  intro l
  induction l with
  | nil => intro a x hx; cases hx
  | cons e t ih =>
    intro a x hx
    rcases List.mem_cons.1 hx with h | h
    · subst h
      exact le_trans (le_max_right a x.date) (le_foldl_max t (max a x.date))
    · exact ih (max a e.date) x h

theorem pickFold_none_eq_find? : ∀ l : List Entry,
    pickFold none l = l.find? (fun e => e.date == maxSurvivorDate l) := by
  intro l
  induction l using List.reverseRecOn with
  | nil => rfl
  | append_singleton l s ih =>
    have hm : maxSurvivorDate (l ++ [s]) = max (maxSurvivorDate l) s.date := by
      unfold maxSurvivorDate
      rw [List.foldl_append]
      rfl
    have hp : pickFold none (l ++ [s]) = pickOne (pickFold none l) s := by
      unfold pickFold
      rw [List.foldl_append]
      rfl
    cases hl : pickFold none l with
    | none =>
      have hnil : l = [] := by
        cases l with
        | nil => rfl
        | cons e t =>
          exfalso
          have hsome := pickFold_isSome t (pickOne none e) (pickOne_isSome none e)
          have heq : pickFold none (e :: t) = pickFold (pickOne none e) t := rfl
          rw [heq] at hl
          rw [hl] at hsome
          cases hsome
      subst hnil
      rw [hp, hl]
      have hms : maxSurvivorDate ([] ++ [s]) = s.date := by
        unfold maxSurvivorDate
        simp
      rw [List.nil_append] at hms ⊢
      simp [pickOne, List.find?_cons, hms]
    | some c =>
      have hfc : List.find? (fun e => e.date == maxSurvivorDate l) l = some c :=
        ih.symm.trans hl
      have hcdate : c.date = maxSurvivorDate l := by
        have := List.find?_some hfc
        simpa using this
      rw [hp, hl]
      by_cases hlt : c.date < s.date
      · have hmax : maxSurvivorDate (l ++ [s]) = s.date := by
          rw [hm, ← hcdate]
          exact max_eq_right (le_of_lt hlt)
        have hL : pickOne (some c) s = some s := by
          simp [pickOne, hlt]
        rw [hL]
        simp only [hmax]
        rw [List.find?_append]
        have h1 : List.find? (fun e => e.date == s.date) l = none := by
          rw [List.find?_eq_none]
          intro x hx
          have hxle : x.date ≤ maxSurvivorDate l := date_le_foldl_max l 0 x hx
          rw [← hcdate] at hxle
          intro hbeq
          have hEq : x.date = s.date := by simpa using hbeq
          have hxs : x.date < s.date := lt_of_le_of_lt hxle hlt
          rw [hEq] at hxs
          exact lt_irrefl _ hxs
        rw [h1]
        have hpred : (s.date == s.date) = true := by simp
        simp [List.find?_cons, hpred]
      · have hsle : s.date ≤ c.date := le_of_not_lt hlt
        have hmax : maxSurvivorDate (l ++ [s]) = maxSurvivorDate l := by
          rw [hm]
          exact max_eq_left (hcdate ▸ hsle)
        have hL : pickOne (some c) s = some c := by
          simp [pickOne, hlt]
        rw [hL]
        simp only [hmax]
        rw [List.find?_append, hfc]
        rfl

theorem buildBortz_eq_find? (cutoff : Date) (rows : List Reading) (id : String) :
    dictGet? id (buildBortzData cutoff rows) =
      (bortzSurvivors cutoff rows id).find?
        (fun e => e.date == maxSurvivorDate (bortzSurvivors cutoff rows id)) := by
  have h := bortz_foldl_proj cutoff id rows []
  exact h.trans (pickFold_none_eq_find? _)

theorem bortzSurvivor?_facts {cutoff : Date} {row : Reading} {i : String} {e : Entry}
    (h : bortzSurvivor? cutoff row = some (i, e)) : e.date ≤ cutoff ∧ i ≠ "age" := by
  unfold bortzSurvivor? at h
  dsimp only at h
  cases hm : dictGet? (pyStrip row.biomarker) BIOMARKER_MAP with
  | none => simp only [hm] at h; cases h
  | some marker_id =>
    simp only [hm] at h
    by_cases hage : marker_id = "age"
    · simp only [if_pos hage] at h; cases h
    · simp only [if_neg hage] at h
      by_cases hnum : (!is_valid_numeric (clean_value (pyStrip row.value))) = true
      · simp only [if_pos hnum] at h; cases h
      · simp only [if_neg hnum] at h
        cases hd : row.date with
        | none => simp only [hd] at h; cases h
        | some date_obj =>
          simp only [hd] at h
          by_cases hle : date_obj ≤ cutoff
          · simp only [if_pos hle] at h
            injection h with h'
            obtain ⟨h1, h2⟩ := Prod.ext_iff.mp h'
            subst h1
            subst h2
            exact ⟨hle, hage⟩
          · simp only [if_neg hle] at h
            cases h

theorem mem_bortzSurvivors_date_le {cutoff : Date} {rows : List Reading} {id : String} :
    ∀ s ∈ bortzSurvivors cutoff rows id, s.date ≤ cutoff := by
  intro s hs
  rcases List.mem_filterMap.1 hs with ⟨row, _, hf⟩
  cases hq : bortzSurvivor? cutoff row with
  | none => simp only [hq] at hf; cases hf
  | some p =>
    obtain ⟨i, e⟩ := p
    simp only [hq] at hf
    by_cases hi : i = id
    · rw [if_pos hi] at hf
      injection hf with he
      subst he
      exact (bortzSurvivor?_facts hq).1
    · rw [if_neg hi] at hf
      cases hf

theorem bortzSurvivors_age_nil (cutoff : Date) (rows : List Reading) :
    bortzSurvivors cutoff rows "age" = [] := by
  unfold bortzSurvivors
  rw [List.filterMap_eq_nil_iff]
  intro row _
  cases hq : bortzSurvivor? cutoff row with
  | none => simp [hq]
  | some p =>
    obtain ⟨i, e⟩ := p
    simp only [hq]
    rw [if_neg (bortzSurvivor?_facts hq).2]

/-- C1 (amended): in `build_snapshot` (the per-cutoff dict fold of
get_all_urls), the entry retained for an id is the EARLIEST-encountered
surviving reading whose date equals the maximum surviving date — `find?`
scans the survivor list in input order — because the update condition
`date_obj > data[marker_id]['date']` is strict, a later reading with the
same date never replaces the stored one. -/
theorem snapshot_tie_keeps_first (cutoff : Date) (rows : List Reading) (id : String) :
    dictGet? id (buildBortzData cutoff rows) =
      (bortzSurvivors cutoff rows id).find?
        (fun e => e.date == maxSurvivorDate (bortzSurvivors cutoff rows id)) :=
  buildBortz_eq_find? cutoff rows id

/-- C1 counterexample: two glucose readings on the same (maximum) date; the
snapshot keeps the first-encountered value "95", not the later "110", so
"retain the one encountered later in the input sequence" is false as
stated. -/
theorem snapshot_tie_counterexample :
    bortzSurvivors sampleCutoff tieRows "S-glucose" =
      [⟨"95", "mg/dL", sampleCutoff⟩, ⟨"110", "mg/dL", sampleCutoff⟩] ∧
    dictGet? "S-glucose" (buildBortzData sampleCutoff tieRows) =
      some ⟨"95", "mg/dL", sampleCutoff⟩ :=
  ⟨by decide, by decide⟩

/-- C2: every non-age entry of a snapshot is a surviving reading (resolved,
numeric, dated on or before the cutoff), its source date is at most the
cutoff and is the maximum date among all surviving readings of its id, and
every surviving reading is dated on or before the cutoff (a reading dated
strictly after the cutoff never contributes). -/
theorem snapshot_entry_is_latest (rows : List Reading) (cutoff : Date)
    (id : String) (e : Entry) (hid : id ≠ "age")
    (h : dictGet? id (bortzSnapshot rows cutoff) = some e) :
    e.date ≤ cutoff ∧ e ∈ bortzSurvivors cutoff rows id ∧
      (∀ s ∈ bortzSurvivors cutoff rows id, s.date ≤ e.date) ∧
      (∀ s ∈ bortzSurvivors cutoff rows id, s.date ≤ cutoff) := by
  have hb : dictGet? id (buildBortzData cutoff rows) = some e := by
    unfold bortzSnapshot at h
    rw [dictGet?_dictSet, if_neg (fun hc => hid hc.symm)] at h
    exact h
  have hfind : (bortzSurvivors cutoff rows id).find?
      (fun x => x.date == maxSurvivorDate (bortzSurvivors cutoff rows id)) = some e :=
    (buildBortz_eq_find? cutoff rows id).symm.trans hb
  have hmem : e ∈ bortzSurvivors cutoff rows id := List.mem_of_find?_eq_some hfind
  have hdate : e.date = maxSurvivorDate (bortzSurvivors cutoff rows id) := by
    have := List.find?_some hfind
    simpa using this
  refine ⟨mem_bortzSurvivors_date_le e hmem, hmem, ?_, mem_bortzSurvivors_date_le⟩
  intro s hs
  rw [hdate]
  exact date_le_foldl_max _ 0 s hs

/-- C2 witness: the invariant applied to the concrete two-reading input at
its own cutoff date. -/
theorem snapshot_entry_is_latest_witness :
    (⟨"95", "mg/dL", sampleCutoff⟩ : Entry).date ≤ sampleCutoff ∧
    (⟨"95", "mg/dL", sampleCutoff⟩ : Entry) ∈
      bortzSurvivors sampleCutoff tieRows "S-glucose" ∧
    (∀ s ∈ bortzSurvivors sampleCutoff tieRows "S-glucose",
       s.date ≤ (⟨"95", "mg/dL", sampleCutoff⟩ : Entry).date) ∧
    (∀ s ∈ bortzSurvivors sampleCutoff tieRows "S-glucose", s.date ≤ sampleCutoff) :=
  snapshot_entry_is_latest tieRows sampleCutoff "S-glucose"
    ⟨"95", "mg/dL", sampleCutoff⟩ (by decide) (by decide)

/-- C8: the chronological age is `(reference - birth).days / 365.25` rounded
to one decimal — for birth date 1958-07-08 it is 65.5 at 2024-01-10 and
65.7 at 2024-03-05 — raw readings resolving to the reserved id `age` are
always discarded by the fold, and the snapshot holds the synthesized age
computed once from the cutoff date. -/
theorem calculate_age_spec :
    calculate_age BIRTHDATE (mkDate 2024 1 10) = 65.5 ∧
    calculate_age BIRTHDATE (mkDate 2024 3 5) = 65.7 ∧
    (∀ (cutoff : Date) (rows : List Reading),
       dictGet? "age" (buildBortzData cutoff rows) = none) ∧
    (∀ (rows : List Reading) (cutoff : Date),
       dictGet? "age" (bortzSnapshot rows cutoff) =
         some ⟨ageString BIRTHDATE cutoff, "years", cutoff⟩) := by
  refine ⟨?_, ?_, ?_, ?_⟩
  · have h1 : ((mkDate 2024 1 10 : ℤ) - (BIRTHDATE : ℤ)) = 23927 := by decide
    have h2 : calculate_age BIRTHDATE (mkDate 2024 1 10) =
        ((roundHalfEven ((((mkDate 2024 1 10 : ℤ) - (BIRTHDATE : ℤ) : ℤ) : ℚ)
          / (36525 / 100) * 10) : ℚ)) / 10 := rfl
    rw [h2, h1]
    norm_num [roundHalfEven]
  · have h1 : ((mkDate 2024 3 5 : ℤ) - (BIRTHDATE : ℤ)) = 23982 := by decide
    have h2 : calculate_age BIRTHDATE (mkDate 2024 3 5) =
        ((roundHalfEven ((((mkDate 2024 3 5 : ℤ) - (BIRTHDATE : ℤ) : ℤ) : ℚ)
          / (36525 / 100) * 10) : ℚ)) / 10 := rfl
    rw [h2, h1]
    norm_num [roundHalfEven]
  · intro cutoff rows
    have h := bortz_foldl_proj cutoff "age" rows []
    rw [bortzSurvivors_age_nil] at h
    exact h
  · intro rows cutoff
    unfold bortzSnapshot
    rw [dictGet?_dictSet, if_pos rfl]

/-- C6: Variant A encoding — the encoded string is the base prefix followed
by `id=percent_encoded(value_underscore_unit)` over the ids in sorted order
joined by `&` (shown by agreement with the spec-worded `specVariantA`), a
percent-sign unit is pre-encoded to `%25` and then escaped again to `%2525`
by the outer pass, and snapshots equal as maps (permuted entry lists)
encode to byte-identical strings. -/
theorem encode_variantA (d₁ d₂ : List (String × Entry))
    (hn : (d₁.map Prod.fst).Nodup) (hp : d₁.Perm d₂) :
    encodeBortz d₁ = specVariantA d₁ ∧ encodeBortz d₂ = encodeBortz d₁ ∧
    normalize_unit "%" = "%25" ∧ pquote "%25" = "%2525" := by
  have hrender : ∀ (d : List (String × Entry)), (d.map Prod.fst).Nodup →
      bortzParams d =
        ((List.insertionSort (fun a b : String × Entry => strLe a.1 b.1) d).map
          (fun kv => kv.1 ++ "=" ++ pquote (kv.2.value ++ "_" ++ normalize_unit kv.2.unit))) := by
    intro d hd
    have hkeys : sortKeys d =
        (List.insertionSort (fun a b : String × Entry => strLe a.1 b.1) d).map Prod.fst := by
      unfold sortKeys
      exact (List.map_insertionSort _ strLe Prod.fst d (fun a _ b _ => Iff.rfl)).symm
    unfold bortzParams
    rw [hkeys, List.map_map]
    refine List.map_congr_left ?_
    intro kv hkv
    have hkv₁ : (kv.1, kv.2) ∈ d := by
      have := (List.mem_insertionSort _).1 hkv
      simpa using this
    have hget : dictGet? kv.1 d = some kv.2 := dictGet?_of_mem_nodup hd hkv₁
    simp [Function.comp, hget]
  have hn₂ : (d₂.map Prod.fst).Nodup := ((hp.map Prod.fst).nodup_iff).1 hn
  refine ⟨?_, ?_, by decide, by decide⟩
  · unfold encodeBortz specVariantA
    rw [hrender d₁ hn]
  · unfold encodeBortz
    have hkeyseq : sortKeys d₂ = sortKeys d₁ := by
      unfold sortKeys
      exact @List.eq_of_perm_of_sorted String strLe _ _ _
        ((List.perm_insertionSort _ _).trans
          (((hp.map Prod.fst).symm).trans (List.perm_insertionSort _ _).symm))
        (List.sorted_insertionSort _ _) (List.sorted_insertionSort _ _)
    unfold bortzParams
    rw [hkeyseq]
    exact congrArg (fun l => BASE_URL ++ String.intercalate "&" l)
      (List.map_congr_left fun k _ => by rw [dictGet?_congr_perm hn hp k])

/-- C6 witness: the encoding theorem applied to a concrete two-entry
snapshot and the same snapshot with its entries permuted. -/
theorem encode_variantA_witness :
    encodeBortz sampleDict = specVariantA sampleDict ∧
    encodeBortz sampleDictPerm = encodeBortz sampleDict ∧
    normalize_unit "%" = "%25" ∧ pquote "%25" = "%2525" :=
  encode_variantA sampleDict sampleDictPerm (by decide) (by decide)

theorem levineRecordForCutoff_eq (rows : List Reading) (cutoff : Date) :
    levineRecordForCutoff rows cutoff =
      if buildLevineData cutoff rows = [] then none
      else if (validate_levine_data (levineSnapshot rows cutoff)).1 = false then none
      else some (cutoff, LEVINE_BASE_URL ++ String.intercalate "&"
        (levineParams (levineSnapshot rows cutoff))) := rfl

/-- C7: `validate` is true exactly when nothing is missing, `missing` is the
sorted set difference `required - present` (membership characterisation plus
sortedness), and a failed validation makes the per-cutoff pipeline emit no
result record for that date. -/
theorem validate_levine_spec (data : List (String × LevineEntry)) :
    ((validate_levine_data data).1 = true ↔ (validate_levine_data data).2 = []) ∧
    List.Sorted strLe (validate_levine_data data).2 ∧
    (∀ id, id ∈ (validate_levine_data data).2 ↔
       (id ∈ LEVINE_REQUIRED_BIOMARKERS ∧ id ∉ data.map Prod.fst)) ∧
    (∀ (rows : List Reading) (cutoff : Date),
       (validate_levine_data (levineSnapshot rows cutoff)).1 = false →
       levineRecordForCutoff rows cutoff = none) := by
  refine ⟨?_, ?_, ?_, ?_⟩
  · unfold validate_levine_data
    dsimp only
    constructor
    · intro h
      have hnil := List.length_eq_zero.1 (of_decide_eq_true h)
      rw [hnil]
      rfl
    · intro h
      have hp := List.perm_insertionSort strLe
        (LEVINE_REQUIRED_BIOMARKERS.filter
          (fun id => !(data.map Prod.fst).contains id))
      rw [h] at hp
      rw [hp.symm.eq_nil]
      rfl
  · unfold validate_levine_data
    dsimp only
    exact List.sorted_insertionSort _ _
  · intro id
    unfold validate_levine_data
    dsimp only
    rw [List.mem_insertionSort, List.mem_filter]
    simp
  · intro rows cutoff h
    rw [levineRecordForCutoff_eq]
    by_cases hd : buildLevineData cutoff rows = []
    · rw [if_pos hd]
    · rw [if_neg hd, if_pos h]

/-- C7 witness: the validation theorem applied at a concrete incomplete
input — two glucose-only readings — whose snapshot fails validation, so no
record is emitted for that cutoff. -/
theorem validate_levine_spec_witness :
    levineRecordForCutoff tieRows sampleCutoff = none :=
  (validate_levine_spec []).2.2.2 tieRows sampleCutoff (by decide)

theorem levineStep_keys (cutoff : Date) (data : List (String × LevineEntry))
    (row : Reading) :
    ∀ k ∈ (levineStep cutoff data row).map Prod.fst,
      k ∈ data.map Prod.fst ∨ k ∈ LEVINE_BIOMARKER_MAP.map Prod.snd := by
  intro k hk
  unfold levineStep at hk
  dsimp only at hk
  cases hm : dictGet? (pyStrip row.biomarker) LEVINE_BIOMARKER_MAP with
  | none =>
    simp only [hm] at hk
    exact Or.inl hk
  | some marker_id =>
    simp only [hm] at hk
    have hmid : marker_id ∈ LEVINE_BIOMARKER_MAP.map Prod.snd :=
      List.mem_map.2 ⟨(pyStrip row.biomarker, marker_id), mem_of_dictGet?_eq_some hm, rfl⟩
    by_cases hage : marker_id = "age"
    · simp only [if_pos hage] at hk
      exact Or.inl hk
    · simp only [if_neg hage] at hk
      by_cases hnum : (!is_valid_numeric (clean_value (pyStrip row.value))) = true
      · simp only [if_pos hnum] at hk
        exact Or.inl hk
      · simp only [if_neg hnum] at hk
        cases hd : row.date with
        | none =>
          simp only [hd] at hk
          exact Or.inl hk
        | some date_obj =>
          simp only [hd] at hk
          by_cases hle : date_obj ≤ cutoff
          · simp only [if_pos hle] at hk
            cases hg : dictGet? marker_id data with
            | none =>
              simp only [hg] at hk
              rcases (mem_keys_dictSet k marker_id _ data).1 hk with he | hk'
              · subst he
                exact Or.inr hmid
              · exact Or.inl hk'
            | some old =>
              simp only [hg] at hk
              by_cases hlt : old.date < date_obj
              · simp only [if_pos hlt] at hk
                rcases (mem_keys_dictSet k marker_id _ data).1 hk with he | hk'
                · subst he
                  exact Or.inr hmid
                · exact Or.inl hk'
              · simp only [if_neg hlt] at hk
                exact Or.inl hk
          · simp only [if_neg hle] at hk
            exact Or.inl hk

theorem levineStep_nodup (cutoff : Date) (data : List (String × LevineEntry))
    (row : Reading) (hn : (data.map Prod.fst).Nodup) :
    ((levineStep cutoff data row).map Prod.fst).Nodup := by
  unfold levineStep
  dsimp only
  cases hm : dictGet? (pyStrip row.biomarker) LEVINE_BIOMARKER_MAP with
  | none => exact hn
  | some marker_id =>
    by_cases hage : marker_id = "age"
    · simp only [if_pos hage]
      exact hn
    · simp only [if_neg hage]
      by_cases hnum : (!is_valid_numeric (clean_value (pyStrip row.value))) = true
      · simp only [if_pos hnum]
        exact hn
      · simp only [if_neg hnum]
        cases hd : row.date with
        | none => exact hn
        | some date_obj =>
          by_cases hle : date_obj ≤ cutoff
          · simp only [if_pos hle]
            cases hg : dictGet? marker_id data with
            | none => exact keys_nodup_dictSet _ _ hn
            | some old =>
              by_cases hlt : old.date < date_obj
              · simp only [if_pos hlt]
                exact keys_nodup_dictSet _ _ hn
              · simp only [if_neg hlt]
                exact hn
          · simp only [if_neg hle]
            exact hn

theorem buildLevine_keys_subset (cutoff : Date) (rows : List Reading) :
    ∀ k ∈ (buildLevineData cutoff rows).map Prod.fst,
      k ∈ LEVINE_BIOMARKER_MAP.map Prod.snd := by
  suffices h : ∀ (rows : List Reading) (data : List (String × LevineEntry)),
      ∀ k ∈ (rows.foldl (levineStep cutoff) data).map Prod.fst,
        k ∈ data.map Prod.fst ∨ k ∈ LEVINE_BIOMARKER_MAP.map Prod.snd by
    intro k hk
    rcases h rows [] k hk with hc | hc
    · cases hc
    · exact hc
  intro rows
  induction rows with
  | nil =>
    intro data k hk
    exact Or.inl hk
  | cons row rows ih =>
    intro data k hk
    rw [List.foldl_cons] at hk
    rcases ih (levineStep cutoff data row) k hk with hc | hc
    · exact levineStep_keys cutoff data row k hc
    · exact Or.inr hc

theorem buildLevine_keys_nodup (cutoff : Date) (rows : List Reading) :
    ((buildLevineData cutoff rows).map Prod.fst).Nodup := by
  suffices h : ∀ (rows : List Reading) (data : List (String × LevineEntry)),
      (data.map Prod.fst).Nodup →
      ((rows.foldl (levineStep cutoff) data).map Prod.fst).Nodup from
    h rows [] (by simp)
  intro rows
  induction rows with
  | nil => intro data hn; exact hn
  | cons row rows ih =>
    intro data hn
    rw [List.foldl_cons]
    exact ih (levineStep cutoff data row) (levineStep_nodup cutoff data row hn)

/-- C10: whenever the strict (Levine) pipeline emits a record for a cutoff,
the sorted key list of its snapshot is exactly the ten required Levine ids
(never a superset — every alias value of the Levine map lies in the
required set, and validation forces every required id to be present), and
the encoded query string enumerates exactly those ten ids. -/
theorem levine_query_ids_exactly_required (rows : List Reading) (cutoff : Date)
    (h : (levineRecordForCutoff rows cutoff).isSome = true) :
    sortKeys (levineSnapshot rows cutoff) = levineSortedRequired ∧
    (∀ d u, levineRecordForCutoff rows cutoff = some (d, u) →
       d = cutoff ∧ u = LEVINE_BASE_URL ++ String.intercalate "&"
         (levineSortedRequired.map (fun marker_id =>
            marker_id ++ "=" ++
              (match dictGet? marker_id (levineSnapshot rows cutoff) with
               | some info => info.value
               | none => "")))) := by
  rw [levineRecordForCutoff_eq] at h
  by_cases hd : buildLevineData cutoff rows = []
  · rw [if_pos hd] at h
    cases h
  · rw [if_neg hd] at h
    by_cases hv : (validate_levine_data (levineSnapshot rows cutoff)).1 = false
    · rw [if_pos hv] at h
      cases h
    · have hvt : (validate_levine_data (levineSnapshot rows cutoff)).1 = true :=
        eq_true_of_ne_false hv
      have hkn : ((levineSnapshot rows cutoff).map Prod.fst).Nodup := by
        unfold levineSnapshot
        exact keys_nodup_dictSet _ _ (buildLevine_keys_nodup cutoff rows)
      have hvalues : ∀ x ∈ LEVINE_BIOMARKER_MAP.map Prod.snd,
          x ∈ LEVINE_REQUIRED_BIOMARKERS := by decide
      have hsub : ∀ k ∈ (levineSnapshot rows cutoff).map Prod.fst,
          k ∈ LEVINE_REQUIRED_BIOMARKERS := by
        intro k hk
        unfold levineSnapshot at hk
        rcases (mem_keys_dictSet k "age" _ _).1 hk with he | hk'
        · subst he
          decide
        · exact hvalues k (buildLevine_keys_subset cutoff rows k hk')
      have hsup : ∀ k ∈ LEVINE_REQUIRED_BIOMARKERS,
          k ∈ (levineSnapshot rows cutoff).map Prod.fst := by
        intro k hk
        by_contra hc
        unfold validate_levine_data at hvt
        dsimp only at hvt
        have hfil := List.length_eq_zero.1 (of_decide_eq_true hvt)
        have hkf : k ∈ LEVINE_REQUIRED_BIOMARKERS.filter
            (fun id => !((levineSnapshot rows cutoff).map Prod.fst).contains id) :=
          List.mem_filter.2 ⟨hk, by simpa using hc⟩
        rw [hfil] at hkf
        cases hkf
      have hperm : ((levineSnapshot rows cutoff).map Prod.fst).Perm levineSortedRequired := by
        have h1 : ((levineSnapshot rows cutoff).map Prod.fst).Perm
            LEVINE_REQUIRED_BIOMARKERS :=
          (List.perm_ext_iff_of_nodup hkn (by decide)).2
            (fun a => ⟨hsub a, hsup a⟩)
        exact h1.trans (by decide : LEVINE_REQUIRED_BIOMARKERS.Perm levineSortedRequired)
      have hkeys : sortKeys (levineSnapshot rows cutoff) = levineSortedRequired := by
        unfold sortKeys
        exact @List.eq_of_perm_of_sorted String strLe _ _ _
          ((List.perm_insertionSort _ _).trans hperm)
          (List.sorted_insertionSort _ _) (by decide)
      refine ⟨hkeys, ?_⟩
      intro d u hrec
      rw [levineRecordForCutoff_eq, if_neg hd, if_neg hv] at hrec
      injection hrec with h'
      have h1 : cutoff = d := congrArg Prod.fst h'
      have h2 : LEVINE_BASE_URL ++ String.intercalate "&"
          (levineParams (levineSnapshot rows cutoff)) = u := congrArg Prod.snd h'
      refine ⟨h1.symm, ?_⟩
      rw [← h2]
      unfold levineParams
      rw [hkeys]
      refine congrArg (fun l => LEVINE_BASE_URL ++ String.intercalate "&" l)
        (List.map_congr_left ?_)
      intro k hk
      have hkr : k ∈ LEVINE_REQUIRED_BIOMARKERS :=
        ((by decide : LEVINE_REQUIRED_BIOMARKERS.Perm levineSortedRequired).mem_iff).2 hk
      have hkm : k ∈ (levineSnapshot rows cutoff).map Prod.fst := hsup k hkr
      cases hg : dictGet? k (levineSnapshot rows cutoff) with
      | none => exact absurd hkm ((dictGet?_eq_none_iff k _).1 hg)
      | some info => simp [hg]

/-- C10 witness: the theorem applied to a concrete full nine-biomarker panel
dated at its own cutoff, for which the pipeline emits a record. -/
theorem levine_query_ids_exactly_required_witness :
    sortKeys (levineSnapshot sampleLevineRows sampleCutoff) = levineSortedRequired ∧
    (∀ d u, levineRecordForCutoff sampleLevineRows sampleCutoff = some (d, u) →
       d = sampleCutoff ∧ u = LEVINE_BASE_URL ++ String.intercalate "&"
         (levineSortedRequired.map (fun marker_id =>
            marker_id ++ "=" ++
              (match dictGet? marker_id (levineSnapshot sampleLevineRows sampleCutoff) with
               | some info => info.value
               | none => "")))) :=
  levine_query_ids_exactly_required sampleLevineRows sampleCutoff (by decide)

end Bloodwork
